import Mathlib

/-!
Verification development for the product matching and ranking engine of the
ai-product-intelligence-tool repository.  The Python sources
(`backend/google_shopping_service.py`, `backend/ai_services.py`,
`backend/main.py`, `backend/models.py`) are shallowly embedded below:
floats are modelled by `ℚ` where the code only performs field arithmetic and
comparisons, and by `ℝ` where the code uses a real power (`** 0.7`);
Python dicts keyed by strings are modelled by association lists; the external
embedding provider is modelled by a response oracle together with an explicit
call counter.
-/

namespace ProductIntel

/-! ## Basic string utilities (Python `str.lower`, substring test `in`) -/

/-- Character list of a Python string after `.lower()` (ASCII case folding,
which covers every string the service manipulates). -/
def lowerList (s : String) : List Char :=
  s.toList.map Char.toLower

/-- Test whether the first list is an initial segment of the second. -/
def startsWithCL : List Char → List Char → Bool
  | [], _ => true
  | _ :: _, [] => false
  | c :: cs, d :: ds => c == d && startsWithCL cs ds

/-- Python substring test `needle in hay` on character lists. -/
def containsCL (n : List Char) : List Char → Bool
  | [] => startsWithCL n []
  | c :: t => startsWithCL n (c :: t) || containsCL n t

/-- Python `needle.lower() in hay.lower()`. -/
def lowerIn (needle hay : String) : Bool :=
  containsCL (lowerList needle) (lowerList hay)

/-! ## difflib.SequenceMatcher

`GoogleShoppingService.similarity_score` is
`SequenceMatcher(None, str1.lower(), str2.lower()).ratio()`.  The embedding
below reproduces difflib: the `b2j` index with autojunk (elements of `b` are
junk when `len(b) >= 200` and the element occupies more than one percent of
`b`), the dynamic program of `find_longest_match` including the four
match-extension loops, the recursive matching-block decomposition (of which
only the total matched size is needed), and
`ratio() = 2*M / (len(a)+len(b))` with the empty-empty case giving `1.0`. -/

/-- Is `c` junk in `b`?  difflib autojunk: only when `b` has at least 200
elements and `c` occurs more than `len(b)/100 + 1` times. -/
def bjunk (b : List Char) (c : Char) : Bool :=
  decide (200 ≤ b.length) &&
    decide (b.length / 100 + 1 < (b.filter (fun d => d == c)).length)

/-- Ascending positions of `c` in `b`, with junk elements removed
(difflib's `b2j` mapping). -/
def b2j (b : List Char) (c : Char) : List Nat :=
  if bjunk b c then []
  else (List.range b.length).filter (fun j => b.getD j ' ' == c)

/-- Inner loop of `find_longest_match` over the position list `b2j b (a i)`:
`j2len` is the previous row of the dynamic program, the first component of the
result is the new row, the second the updated best `(i, j, size)` triple.
Positions below `blo` are skipped and the loop breaks at the first position
reaching `bhi`, as in difflib. -/
def innerLoop (j2len : Nat → Nat) (i blo bhi : Nat) :
    List Nat → (Nat → Nat) → Nat × Nat × Nat → (Nat → Nat) × (Nat × Nat × Nat)
  | [], newj, best => (newj, best)
  | j :: js, newj, best =>
    if j < blo then innerLoop j2len i blo bhi js newj best
    else if bhi ≤ j then (newj, best)
    else
      let k := (if j = 0 then 0 else j2len (j - 1)) + 1
      let newj2 := fun x => if x = j then k else newj x
      let best2 := if best.2.2 < k then (i + 1 - k, j + 1 - k, k) else best
      innerLoop j2len i blo bhi js newj2 best2

/-- Outer loop of `find_longest_match` over the rows `alo, …, ahi-1`. -/
def outerLoop (a b : List Char) (blo bhi : Nat) :
    List Nat → (Nat → Nat) → Nat × Nat × Nat → Nat × Nat × Nat
  | [], _, best => best
  | i :: is, j2len, best =>
    let r := innerLoop j2len i blo bhi (b2j b (a.getD i ' ')) (fun _ => 0) best
    outerLoop a b blo bhi is r.1 r.2

/-- One of the four extension loops of `find_longest_match`: extend the best
match to the left while the adjoining element of `b` has junk status `flag`
and the adjoining elements agree.  `fuel` dominates the loop count. -/
def extLeft (a b : List Char) (alo blo : Nat) (flag : Bool) :
    Nat → Nat × Nat × Nat → Nat × Nat × Nat
  | 0, r => r
  | fuel + 1, (bi, bj, k) =>
    if decide (alo < bi) && decide (blo < bj) &&
        (bjunk b (b.getD (bj - 1) ' ') == flag) &&
        (a.getD (bi - 1) ' ' == b.getD (bj - 1) ' ') then
      extLeft a b alo blo flag fuel (bi - 1, bj - 1, k + 1)
    else (bi, bj, k)

/-- Right-extension loop of `find_longest_match`, analogous to `extLeft`. -/
def extRight (a b : List Char) (ahi bhi : Nat) (flag : Bool) :
    Nat → Nat × Nat × Nat → Nat × Nat × Nat
  | 0, r => r
  | fuel + 1, (bi, bj, k) =>
    if decide (bi + k < ahi) && decide (bj + k < bhi) &&
        (bjunk b (b.getD (bj + k) ' ') == flag) &&
        (a.getD (bi + k) ' ' == b.getD (bj + k) ' ') then
      extRight a b ahi bhi flag fuel (bi, bj, k + 1)
    else (bi, bj, k)

/-- difflib `find_longest_match` on the slice `a[alo:ahi]`, `b[blo:bhi]`:
the dynamic program followed by the non-junk and junk extension loops. -/
def find_longest_match (a b : List Char) (alo ahi blo bhi : Nat) :
    Nat × Nat × Nat :=
  let dp := outerLoop a b blo bhi (List.range' alo (ahi - alo))
    (fun _ => 0) (alo, blo, 0)
  let fuel := a.length + b.length + 1
  let e1 := extLeft a b alo blo false fuel dp
  let e2 := extRight a b ahi bhi false fuel e1
  let e3 := extLeft a b alo blo true fuel e2
  let e4 := extRight a b ahi bhi true fuel e3
  e4

/-- Total size of all matching blocks of difflib `get_matching_blocks`
restricted to `a[alo:ahi]`, `b[blo:bhi]` (the recursion splits around the
longest match).  `fuel` bounds the recursion depth; any value at least
`ahi - alo` is sufficient since each recursive slice of `a` is strictly
shorter. -/
def totalMatched (a b : List Char) : Nat → Nat → Nat → Nat → Nat → Nat
  | 0, _, _, _, _ => 0
  | fuel + 1, alo, ahi, blo, bhi =>
    let m := find_longest_match a b alo ahi blo bhi
    if m.2.2 = 0 then 0
    else
      totalMatched a b fuel alo m.1 blo m.2.1 + m.2.2 +
        totalMatched a b fuel (m.1 + m.2.2) ahi (m.2.1 + m.2.2) bhi

/-- difflib `ratio()`: twice the total matched size over the total length,
and `1.0` when both sequences are empty. -/
def ratioCL (a b : List Char) : ℚ :=
  if a.length + b.length = 0 then 1
  else (2 * (totalMatched a b (a.length + b.length) 0 a.length 0 b.length) : ℚ)
    / ((a.length : ℚ) + (b.length : ℚ))

/-- `similarity_score` on character lists: lower both sides, then `ratio()`. -/
def similarityCL (s1 s2 : List Char) : ℚ :=
  ratioCL (s1.map Char.toLower) (s2.map Char.toLower)

/-- `GoogleShoppingService.similarity_score`:
`SequenceMatcher(None, str1.lower(), str2.lower()).ratio()`. -/
def similarity_score (s1 s2 : String) : ℚ :=
  similarityCL s1.toList s2.toList

/-! ## Size-token regular expression

`fuzzy_match_product` extracts size tokens with
`re.findall(r'\b\d+[\s]*(?:inch|in|ft|feet|cm|mm|"|\')\b', s, re.IGNORECASE)`
on already lowercased strings.  The matcher below is a direct model of this
single pattern: a word boundary, a maximal digit run, a maximal whitespace
run, the first unit alternative (in the pattern's order) that fits, and a
trailing word boundary.  Backtracking inside the digit or whitespace runs can
never succeed for this pattern (a shorter run would have to continue with a
digit resp. a whitespace character, which no alternative starts with), so
greedy maximal runs are faithful. -/

/-- Python regex word character `\w` for the ASCII inputs in play. -/
def isWordChar (c : Char) : Bool :=
  c.isAlphanum || c == '_'

/-- Python regex whitespace class `\s`. -/
def pyIsSpace (c : Char) : Bool :=
  c == ' ' || c == '\t' || c == '\n' || c == '\r' || c == '\x0b' || c == '\x0c'

/-- The unit alternatives of the size pattern, in the pattern's order; the
last two are the double-quote and apostrophe characters. -/
def sizeUnits : List (List Char) :=
  ["inch".toList, "in".toList, "ft".toList, "feet".toList,
   "cm".toList, "mm".toList, [Char.ofNat 34], [Char.ofNat 39]]

/-- Word-boundary test after a matched unit: the unit's final character and
the following character (word-char status `false` at end of input) must
differ in word-char status. -/
def boundaryAfter (alt rest : List Char) : Bool :=
  let lastW := isWordChar (alt.getLastD ' ')
  match rest with
  | [] => lastW
  | c :: _ => lastW != isWordChar c

/-- Try the unit alternatives in order against `rest2`; on success return the
whole matched token `digits ++ spaces ++ unit` and the remaining input. -/
def tryUnits (ds sp rest2 : List Char) : List (List Char) → Option (List Char × List Char)
  | [] => none
  | alt :: alts =>
    if startsWithCL alt rest2 && boundaryAfter alt (rest2.drop alt.length) then
      some (ds ++ sp ++ alt, rest2.drop alt.length)
    else tryUnits ds sp rest2 alts

/-- Attempt the size pattern at the current position (the leading word
boundary is checked by the caller). -/
def matchSizeAt (cs : List Char) : Option (List Char × List Char) :=
  let ds := cs.takeWhile Char.isDigit
  if ds.isEmpty then none
  else
    let rest1 := cs.drop ds.length
    let sp := rest1.takeWhile pyIsSpace
    let rest2 := rest1.drop sp.length
    tryUnits ds sp rest2 sizeUnits

/-- Scan for all non-overlapping size-pattern matches left to right, as
`re.findall` does; `prev` is the character before the current position (used
for the leading word boundary).  `fuel` dominates the number of scan steps;
every step consumes at least one character, so an initial fuel equal to the
input length suffices. -/
def findSizesAux : Nat → Option Char → List Char → List (List Char)
  | 0, _, _ => []
  | _ + 1, _, [] => []
  | fuel + 1, prev, c :: t =>
    let boundary := match prev with | none => true | some p => !isWordChar p
    if boundary then
      match matchSizeAt (c :: t) with
      | some (tok, rest) => tok :: findSizesAux fuel (some (tok.getLastD ' ')) rest
      | none => findSizesAux fuel (some c) t
    else findSizesAux fuel (some c) t

/-- All size tokens found in an (already lowercased) character list. -/
def findallSize (cs : List Char) : List (List Char) :=
  findSizesAux cs.length none cs

/-! ## Pack-quantity pattern

`GoogleShoppingService.extract_pack_quantity` runs
`re.search(r'(\d+)-pack', title, re.IGNORECASE)` and returns
`int(match.group(1))`, and `calculate_unit_price` divides the total price by
the pack quantity when it is positive. -/

/-- Value of a digit run, as Python `int` of the matched group. -/
def digitsToNat (ds : List Char) : Nat :=
  ds.foldl (fun n c => n * 10 + (c.toNat - 48)) 0

/-- Leftmost search for the pattern `(\d+)-pack` on a lowercased character
list: at each position try a maximal digit run followed by the literal
`-pack` (shorter digit runs can never help, since the continuation would have
to start with a digit).  `fuel` dominates the scan length. -/
def packSearch : Nat → List Char → Option Nat
  | 0, _ => none
  | _ + 1, [] => none
  | fuel + 1, c :: t =>
    let ds := (c :: t).takeWhile Char.isDigit
    if !ds.isEmpty && startsWithCL "-pack".toList ((c :: t).drop ds.length) then
      some (digitsToNat ds)
    else packSearch fuel t

/-- `GoogleShoppingService.extract_pack_quantity`: the quantity of the first
`<integer>-pack` occurrence in the title (case-insensitive), if any. -/
def extract_pack_quantity (title : String) : Option Nat :=
  packSearch title.length (lowerList title)

/-- `GoogleShoppingService.calculate_unit_price`: the total price divided by
the pack quantity when the quantity is positive, the total price otherwise. -/
def calculate_unit_price (total_price : ℚ) (pack_quantity : Nat) : ℚ :=
  if 0 < pack_quantity then total_price / (pack_quantity : ℚ)
  else total_price

/-! ## Data model -/

/-- `backend/models.py` `ProductFeatures` (the `AttributeSet` of the spec):
optional strings model `Optional[str]` fields, the specification dict is an
association list in insertion order. -/
structure ProductFeatures where
  brand : Option String
  model : Option String
  product_type : String
  color : Option String
  size : Option String
  material : Option String
  style : Option String
  category : String
  key_features : List String
  specifications : List (String × String)
deriving DecidableEq

/-- Python truthiness of an optional string (`None` and `""` are falsy). -/
def optTruthy : Option String → Bool
  | none => false
  | some s => !s.isEmpty

/-- The per-call matching-criteria configuration of `fuzzy_match_product`;
a missing key in the Python dict defaults to `True` via `.get(key, True)`,
so a total record is an equivalent model. -/
structure MatchingCriteria where
  titleMatching : Bool
  brandMatching : Bool
  colorMatching : Bool
  sizeMatching : Bool
  specificationsMatching : Bool
deriving DecidableEq

/-- The default criteria used when `matching_criteria is None`. -/
def defaultCriteria : MatchingCriteria :=
  ⟨true, true, true, true, true⟩

/-! ## fuzzy_match_product -/

/-- Size sub-score of `fuzzy_match_product`: `1.0` when some pair of size
tokens extracted from the feature size and from the listing title has
similarity above `0.8`, else `0.0` (the nested Python loops with early break
compute exactly this any-pair test). -/
def sizeSubScore (featSize title : String) : ℚ :=
  let es := findallSize (lowerList featSize)
  let rs := findallSize (lowerList title)
  if es.any (fun e => rs.any (fun r => (8 : ℚ)/10 < similarityCL e r)) then 1 else 0

/-- The hard-coded list of title-visible specification keys. -/
def importantSpecs : List String :=
  ["Light Source Type", "Power Source", "Special Feature", "Light Color", "Theme"]

/-- Python dict membership plus lookup on the specification map. -/
def specLookup (specs : List (String × String)) (k : String) : Option String :=
  (specs.find? (fun e => e.1 == k)).map (fun e => e.2)

/-- One step of the `important_specs` loop: a key counts when present with a
value longer than two characters, and scores when that value occurs in the
lowercased title. -/
def specStep (specs : List (String × String)) (title : String)
    (acc : Nat × Nat) (key : String) : Nat × Nat :=
  match specLookup specs key with
  | some v =>
      if !v.isEmpty && decide (2 < v.length) then
        (acc.1 + 1, acc.2 + (if lowerIn v title then 1 else 0))
      else acc
  | none => acc

/-- The `(spec_count, spec_score)` pair accumulated over `important_specs`. -/
def specTally (specs : List (String × String)) (title : String) : Nat × Nat :=
  importantSpecs.foldl (specStep specs title) (0, 0)

/-- `GoogleShoppingService.fuzzy_match_product`.  The listing is represented
by its optional `title` entry — the only key the function reads; each
accumulator pair is `(score, weight_sum)` after one criterion.  The title
criterion uses `extracted_features.product_type or ""`, which on strings is
the identity, so `product_type` is passed directly. -/
def fuzzy_match_product (f : ProductFeatures) (listingTitle : Option String)
    (criteria : Option MatchingCriteria) : ℚ :=
  let mc := criteria.getD defaultCriteria
  let hasTitle := listingTitle.isSome
  let title := listingTitle.getD ""
  let a1 : ℚ × ℚ :=
    if mc.titleMatching && hasTitle then
      (similarity_score f.product_type title * (3/10), 3/10)
    else (0, 0)
  let a2 :=
    if mc.brandMatching && optTruthy f.brand && hasTitle then
      (a1.1 + (if lowerIn (f.brand.getD "") title then (1 : ℚ) else 0) * (1/4),
       a1.2 + 1/4)
    else a1
  let a3 :=
    if mc.colorMatching && optTruthy f.color && hasTitle then
      (a2.1 + (if lowerIn (f.color.getD "") title then (1 : ℚ) else 0) * (1/10),
       a2.2 + 1/10)
    else a2
  let a4 :=
    if mc.sizeMatching && optTruthy f.size && hasTitle then
      (a3.1 + sizeSubScore (f.size.getD "") title * (1/10), a3.2 + 1/10)
    else a3
  let tally := specTally f.specifications title
  let a5 :=
    if mc.specificationsMatching && !f.specifications.isEmpty && hasTitle then
      if 0 < tally.1 then
        (a4.1 + ((tally.2 : ℚ) / (tally.1 : ℚ)) * (1/4), a4.2 + 1/4)
      else a4
    else a4
  if 0 < a5.2 then a5.1 / a5.2 else 0

/-! ## Bounds for the SequenceMatcher dynamic program

The matching blocks of difflib never overlap, so the total matched size is at
most the length of either sequence; this gives `ratio() ∈ [0,1]`. -/

/-- A best-match triple `(i, j, k)` stays inside the slice
`[alo, ahi) × [blo, bhi)`. -/
def MatchBounds (alo ahi blo bhi : Nat) (m : Nat × Nat × Nat) : Prop :=
  alo ≤ m.1 ∧ m.1 + m.2.2 ≤ ahi ∧ blo ≤ m.2.1 ∧ m.2.1 + m.2.2 ≤ bhi

theorem innerLoop_bounds (j2len : Nat → Nat) (i alo ahi blo bhi : Nat)
    (hialo : alo ≤ i) (hiahi : i < ahi)
    (hj2 : ∀ x, j2len x ≠ 0 → blo ≤ x ∧ x < bhi ∧ j2len x ≤ i - alo ∧
      j2len x ≤ x + 1 - blo) :
    ∀ (js : List Nat) (newj : Nat → Nat) (best : Nat × Nat × Nat),
      (∀ x, newj x ≠ 0 → blo ≤ x ∧ x < bhi ∧ newj x ≤ i + 1 - alo ∧
        newj x ≤ x + 1 - blo) →
      MatchBounds alo ahi blo bhi best →
      (∀ x, (innerLoop j2len i blo bhi js newj best).1 x ≠ 0 →
        blo ≤ x ∧ x < bhi ∧ (innerLoop j2len i blo bhi js newj best).1 x ≤ i + 1 - alo ∧
        (innerLoop j2len i blo bhi js newj best).1 x ≤ x + 1 - blo) ∧
      MatchBounds alo ahi blo bhi (innerLoop j2len i blo bhi js newj best).2 := by
  intro js
  induction js with
  | nil =>
    intro newj best hnew hbest
    exact ⟨hnew, hbest⟩
  | cons j js ih =>
    intro newj best hnew hbest
    simp only [innerLoop]
    by_cases hlo : j < blo
    · rw [if_pos hlo]
      exact ih newj best hnew hbest
    · rw [if_neg hlo]
      by_cases hhi : bhi ≤ j
      · rw [if_pos hhi]
        exact ⟨hnew, hbest⟩
      · rw [if_neg hhi]
        have hjlo : blo ≤ j := Nat.le_of_not_lt hlo
        have hjhi : j < bhi := Nat.lt_of_not_le hhi
        have hk1 : (if j = 0 then 0 else j2len (j - 1)) + 1 ≤ i + 1 - alo := by
          by_cases hj0 : j = 0
          · simp only [hj0, if_pos]
            omega
          · rw [if_neg hj0]
            by_cases hz : j2len (j - 1) = 0
            · rw [hz]; omega
            · have := (hj2 (j - 1) hz).2.2.1
              omega
        have hk2 : (if j = 0 then 0 else j2len (j - 1)) + 1 ≤ j + 1 - blo := by
          by_cases hj0 : j = 0
          · simp only [hj0, if_pos]
            omega
          · rw [if_neg hj0]
            by_cases hz : j2len (j - 1) = 0
            · rw [hz]; omega
            · have h1 := (hj2 (j - 1) hz).1
              have h2 := (hj2 (j - 1) hz).2.2.2
              omega
        refine ih _ _ ?_ ?_
        · intro x hx
          by_cases hxj : x = j
          · simp only [hxj, if_pos] at hx ⊢
            exact ⟨hjlo, hjhi, hk1, hk2⟩
          · simp only [if_neg hxj] at hx ⊢
            exact hnew x hx
        · by_cases hlt : best.2.2 < (if j = 0 then 0 else j2len (j - 1)) + 1
          · rw [if_pos hlt]
            refine ⟨?_, ?_, ?_, ?_⟩ <;> simp only <;> omega
          · rw [if_neg hlt]
            exact hbest

theorem outerLoop_bounds (a b : List Char) (alo ahi blo bhi : Nat) :
    ∀ (n i0 : Nat) (j2len : Nat → Nat) (best : Nat × Nat × Nat),
      alo ≤ i0 → i0 + n = ahi →
      (∀ x, j2len x ≠ 0 → blo ≤ x ∧ x < bhi ∧ j2len x ≤ i0 - alo ∧
        j2len x ≤ x + 1 - blo) →
      MatchBounds alo ahi blo bhi best →
      MatchBounds alo ahi blo bhi
        (outerLoop a b blo bhi (List.range' i0 n) j2len best) := by
  intro n
  induction n with
  | zero =>
    intro i0 j2len best _ _ _ hbest
    simpa [List.range', outerLoop] using hbest
  | succ n ih =>
    intro i0 j2len best h0 hsum hj2 hbest
    have hrange : List.range' i0 (n + 1) = i0 :: List.range' (i0 + 1) n := by
      simp [List.range'_succ]
    rw [hrange]
    simp only [outerLoop]
    have hi0hi : i0 < ahi := by omega
    have hinner := innerLoop_bounds j2len i0 alo ahi blo bhi h0 hi0hi hj2
      (b2j b (a.getD i0 ' ')) (fun _ => 0) best (by intro x hx; simp at hx) hbest
    refine ih (i0 + 1) _ _ (by omega) (by omega) ?_ hinner.2
    intro x hx
    have := hinner.1 x hx
    omega

theorem extLeft_bounds (a b : List Char) (alo blo : Nat) (flag : Bool)
    (ahi bhi : Nat) :
    ∀ (fuel : Nat) (r : Nat × Nat × Nat), MatchBounds alo ahi blo bhi r →
      MatchBounds alo ahi blo bhi (extLeft a b alo blo flag fuel r) := by
  intro fuel
  induction fuel with
  | zero =>
    intro r hr
    simpa [extLeft] using hr
  | succ n ih =>
    intro r hr
    obtain ⟨bi, bj, k⟩ := r
    simp only [MatchBounds] at hr
    simp only [extLeft]
    by_cases hc : (decide (alo < bi) && decide (blo < bj) &&
        (bjunk b (b.getD (bj - 1) ' ') == flag) &&
        (a.getD (bi - 1) ' ' == b.getD (bj - 1) ' ')) = true
    · rw [if_pos hc]
      simp only [Bool.and_eq_true, decide_eq_true_eq] at hc
      obtain ⟨⟨⟨h1, h2⟩, -⟩, -⟩ := hc
      refine ih (bi - 1, bj - 1, k + 1) ?_
      simp only [MatchBounds]
      omega
    · rw [if_neg hc]
      exact hr

theorem extRight_bounds (a b : List Char) (ahi bhi : Nat) (flag : Bool)
    (alo blo : Nat) :
    ∀ (fuel : Nat) (r : Nat × Nat × Nat), MatchBounds alo ahi blo bhi r →
      MatchBounds alo ahi blo bhi (extRight a b ahi bhi flag fuel r) := by
  intro fuel
  induction fuel with
  | zero =>
    intro r hr
    simpa [extRight] using hr
  | succ n ih =>
    intro r hr
    obtain ⟨bi, bj, k⟩ := r
    simp only [MatchBounds] at hr
    simp only [extRight]
    by_cases hc : (decide (bi + k < ahi) && decide (bj + k < bhi) &&
        (bjunk b (b.getD (bj + k) ' ') == flag) &&
        (a.getD (bi + k) ' ' == b.getD (bj + k) ' ')) = true
    · rw [if_pos hc]
      simp only [Bool.and_eq_true, decide_eq_true_eq] at hc
      obtain ⟨⟨⟨h1, h2⟩, -⟩, -⟩ := hc
      refine ih (bi, bj, k + 1) ?_
      simp only [MatchBounds]
      omega
    · rw [if_neg hc]
      exact hr

theorem flm_bounds (a b : List Char) (alo ahi blo bhi : Nat)
    (hA : alo ≤ ahi) (hB : blo ≤ bhi) :
    MatchBounds alo ahi blo bhi (find_longest_match a b alo ahi blo bhi) := by
  unfold find_longest_match
  apply extRight_bounds
  apply extLeft_bounds
  apply extRight_bounds
  apply extLeft_bounds
  apply outerLoop_bounds a b alo ahi blo bhi (ahi - alo) alo _ _ le_rfl
    (by omega)
  · intro x hx
    simp at hx
  · exact ⟨le_rfl, by simpa using hA, le_rfl, by simpa using hB⟩

theorem totalMatched_le (a b : List Char) :
    ∀ (fuel alo ahi blo bhi : Nat), alo ≤ ahi → blo ≤ bhi →
      totalMatched a b fuel alo ahi blo bhi ≤ ahi - alo ∧
      totalMatched a b fuel alo ahi blo bhi ≤ bhi - blo := by
  intro fuel
  induction fuel with
  | zero =>
    intro alo ahi blo bhi _ _
    simp [totalMatched]
  | succ n ih =>
    intro alo ahi blo bhi hA hB
    have hm := flm_bounds a b alo ahi blo bhi hA hB
    obtain ⟨h1, h2, h3, h4⟩ := hm
    simp only [totalMatched]
    by_cases hk : (find_longest_match a b alo ahi blo bhi).2.2 = 0
    · rw [if_pos hk]
      omega
    · rw [if_neg hk]
      have l1 := ih alo (find_longest_match a b alo ahi blo bhi).1 blo
        (find_longest_match a b alo ahi blo bhi).2.1 h1 h3
      have l2 := ih ((find_longest_match a b alo ahi blo bhi).1 +
          (find_longest_match a b alo ahi blo bhi).2.2) ahi
        ((find_longest_match a b alo ahi blo bhi).2.1 +
          (find_longest_match a b alo ahi blo bhi).2.2) bhi h2 h4
      omega

theorem ratioCL_nonneg (a b : List Char) : 0 ≤ ratioCL a b := by
  unfold ratioCL
  split
  · norm_num
  · positivity

theorem ratioCL_le_one (a b : List Char) : ratioCL a b ≤ 1 := by
  unfold ratioCL
  split
  · norm_num
  · rename_i h
    have hM := totalMatched_le a b (a.length + b.length) 0 a.length 0 b.length
      (Nat.zero_le _) (Nat.zero_le _)
    have hpos : 0 < a.length + b.length := Nat.pos_of_ne_zero h
    have hden : (0 : ℚ) < (a.length : ℚ) + (b.length : ℚ) := by
      exact_mod_cast hpos
    rw [div_le_one hden]
    have hle : 2 * totalMatched a b (a.length + b.length) 0 a.length 0 b.length ≤
        a.length + b.length := by omega
    exact_mod_cast hle

theorem similarity_score_nonneg (s1 s2 : String) : 0 ≤ similarity_score s1 s2 :=
  ratioCL_nonneg _ _

theorem similarity_score_le_one (s1 s2 : String) : similarity_score s1 s2 ≤ 1 :=
  ratioCL_le_one _ _

/-! ## The weighted-average reading of fuzzy_match_product -/

theorem specStep_le (specs : List (String × String)) (title : String)
    (acc : Nat × Nat) (key : String) (h : acc.2 ≤ acc.1) :
    (specStep specs title acc key).2 ≤ (specStep specs title acc key).1 := by
  unfold specStep
  cases specLookup specs key with
  | none => exact h
  | some v =>
    simp only
    split
    · split <;> simp <;> omega
    · exact h

theorem specTally_le (specs : List (String × String)) (title : String) :
    (specTally specs title).2 ≤ (specTally specs title).1 := by
  unfold specTally
  have key : ∀ (keys : List String) (acc : Nat × Nat), acc.2 ≤ acc.1 →
      (keys.foldl (specStep specs title) acc).2 ≤
        (keys.foldl (specStep specs title) acc).1 := by
    intro keys
    induction keys with
    | nil => intro acc h; simpa using h
    | cons k ks ih =>
      intro acc h
      simp only [List.foldl_cons]
      exact ih _ (specStep_le specs title acc k h)
  exact key importantSpecs (0, 0) (le_refl 0)

/-- The five sub-score entries of `fuzzy_match_product` for a listing with a
title: applicability flag (criterion enabled and precondition attribute
present), weight, and sub-score, in the order the code checks them. -/
def subScores (f : ProductFeatures) (title : String) (mc : MatchingCriteria) :
    List (Bool × ℚ × ℚ) :=
  [ (mc.titleMatching, 3/10, similarity_score f.product_type title),
    (mc.brandMatching && optTruthy f.brand, 1/4,
      if lowerIn (f.brand.getD "") title then 1 else 0),
    (mc.colorMatching && optTruthy f.color, 1/10,
      if lowerIn (f.color.getD "") title then 1 else 0),
    (mc.sizeMatching && optTruthy f.size, 1/10, sizeSubScore (f.size.getD "") title),
    (mc.specificationsMatching && !f.specifications.isEmpty &&
        decide (0 < (specTally f.specifications title).1), 1/4,
      ((specTally f.specifications title).2 : ℚ) /
        ((specTally f.specifications title).1 : ℚ)) ]

/-- Sum of the weights of the applicable sub-scores (`weight_sum`). -/
def appliedWeight (f : ProductFeatures) (title : String)
    (mc : MatchingCriteria) : ℚ :=
  (((subScores f title mc).filter (fun e => e.1)).map (fun e => e.2.1)).sum

/-- Weighted sum of the applicable sub-scores (`score`). -/
def appliedScore (f : ProductFeatures) (title : String)
    (mc : MatchingCriteria) : ℚ :=
  (((subScores f title mc).filter (fun e => e.1)).map (fun e => e.2.1 * e.2.2)).sum

theorem applied_sums_bounds (l : List (Bool × ℚ × ℚ))
    (h : ∀ e ∈ l, 0 ≤ e.2.1 ∧ 0 ≤ e.2.2 ∧ e.2.2 ≤ 1) :
    0 ≤ ((l.filter (fun e => e.1)).map (fun e => e.2.1 * e.2.2)).sum ∧
    ((l.filter (fun e => e.1)).map (fun e => e.2.1 * e.2.2)).sum ≤
      ((l.filter (fun e => e.1)).map (fun e => e.2.1)).sum := by
  induction l with
  | nil => simp
  | cons e l ih =>
    have he := h e (List.mem_cons_self e l)
    have hl := ih (fun x hx => h x (List.mem_cons_of_mem e hx))
    by_cases hb : e.1 = true
    · simp only [List.filter_cons, hb, if_true, List.map_cons, List.sum_cons]
      have hm1 : 0 ≤ e.2.1 * e.2.2 := mul_nonneg he.1 he.2.1
      have hm2 : e.2.1 * e.2.2 ≤ e.2.1 := by
        have := mul_le_mul_of_nonneg_left he.2.2 he.1
        simpa using this
      constructor
      · linarith [hl.1]
      · linarith [hl.2]
    · simp only [List.filter_cons, hb, if_false, Bool.false_eq_true]
      exact hl

theorem subScores_bounds (f : ProductFeatures) (title : String)
    (mc : MatchingCriteria) :
    ∀ e ∈ subScores f title mc, 0 ≤ e.2.1 ∧ 0 ≤ e.2.2 ∧ e.2.2 ≤ 1 := by
  intro e he
  simp only [subScores, List.mem_cons, List.not_mem_nil, or_false] at he
  rcases he with h | h | h | h | h <;> subst h
  · exact ⟨by norm_num, similarity_score_nonneg _ _, similarity_score_le_one _ _⟩
  · refine ⟨by norm_num, ?_, ?_⟩ <;> split <;> norm_num
  · refine ⟨by norm_num, ?_, ?_⟩ <;> split <;> norm_num
  · refine ⟨by norm_num, ?_, ?_⟩ <;> simp only [sizeSubScore] <;> split <;> norm_num
  · refine ⟨by norm_num, by positivity, ?_⟩
    by_cases hc : (specTally f.specifications title).1 = 0
    · simp [hc]
    · have hpos : (0 : ℚ) < ((specTally f.specifications title).1 : ℚ) := by
        exact_mod_cast Nat.pos_of_ne_zero hc
      rw [div_le_one hpos]
      exact_mod_cast specTally_le f.specifications title

/-! ## Claim theorems for the fuzzy matcher -/

set_option maxHeartbeats 2000000 in
/-- C1: for every attribute set and every listing exposing a title, the fuzzy
match score equals the sum of the applicable weighted sub-scores divided by
the sum of the weights actually applied; a sub-score whose precondition
attribute is missing or whose criterion is disabled contributes neither score
nor weight; if no sub-score is applicable the result is `0.0`; and the result
always lies in `[0,1]`. -/
theorem c1_fuzzy_weighted_normalization (f : ProductFeatures) (title : String)
    (criteria : Option MatchingCriteria) :
    fuzzy_match_product f (some title) criteria =
      (if 0 < appliedWeight f title (criteria.getD defaultCriteria) then
        appliedScore f title (criteria.getD defaultCriteria) /
          appliedWeight f title (criteria.getD defaultCriteria)
      else 0) ∧
    (appliedWeight f title (criteria.getD defaultCriteria) = 0 →
      fuzzy_match_product f (some title) criteria = 0) ∧
    0 ≤ fuzzy_match_product f (some title) criteria ∧
    fuzzy_match_product f (some title) criteria ≤ 1 := by
  have heq : fuzzy_match_product f (some title) criteria =
      (if 0 < appliedWeight f title (criteria.getD defaultCriteria) then
        appliedScore f title (criteria.getD defaultCriteria) /
          appliedWeight f title (criteria.getD defaultCriteria)
      else 0) := by
    set mc := criteria.getD defaultCriteria with hmc
    simp only [fuzzy_match_product, appliedScore, appliedWeight, subScores, ← hmc,
      Option.isSome_some, Option.getD_some, Bool.and_true,
      List.filter_cons, List.filter_nil, List.map_cons, List.map_nil,
      List.sum_cons, List.sum_nil]
    cases h1 : mc.titleMatching <;>
      cases h2 : mc.brandMatching && optTruthy f.brand <;>
      cases h3 : mc.colorMatching && optTruthy f.color <;>
      cases h4 : mc.sizeMatching && optTruthy f.size <;>
      cases h5 : mc.specificationsMatching && !f.specifications.isEmpty <;>
      by_cases h6 : 0 < (specTally f.specifications title).1 <;>
      simp [h6] <;>
      norm_num <;>
      ring_nf
  have hb := applied_sums_bounds (subScores f title (criteria.getD defaultCriteria))
    (subScores_bounds f title (criteria.getD defaultCriteria))
  refine ⟨heq, ?_, ?_, ?_⟩
  · intro hw
    rw [heq, hw]
    norm_num
  · rw [heq]
    split
    · rename_i hpos
      exact div_nonneg hb.1 (le_of_lt hpos)
    · norm_num
  · rw [heq]
    split
    · rename_i hpos
      rw [div_le_one hpos]
      exact hb.2
    · norm_num

/-- C10: a listing record with no `title` key makes every sub-score
inapplicable, so `fuzzy_match_product` returns `0.0` rather than raising. -/
theorem c10_no_title_scores_zero (f : ProductFeatures)
    (criteria : Option MatchingCriteria) :
    fuzzy_match_product f none criteria = 0 := by
  simp [fuzzy_match_product]

/-- The attribute set of the spec's fuzzy-match test vector:
`productType="string lights"`, `brand="Brightown"`, `color="warm white"`,
no size and no specifications. -/
def brightownFeatures : ProductFeatures :=
  { brand := some "Brightown", model := none, product_type := "string lights",
    color := some "warm white", size := none, material := none, style := none,
    category := "lighting", key_features := [], specifications := [] }

set_option maxRecDepth 4000 in
/-- C7: the Brightown attribute set against the listing title
`"Brightown 50ft Warm White LED String Lights"` scores strictly above `0.7`
with default weights and all matching criteria enabled. -/
theorem c7_brightown_score_above_070 :
    (7 : ℚ)/10 <
      fuzzy_match_product brightownFeatures
        (some "Brightown 50ft Warm White LED String Lights") none := by
  have hM : totalMatched ("string lights".toList.map Char.toLower)
      ("Brightown 50ft Warm White LED String Lights".toList.map Char.toLower)
      (("string lights".toList.map Char.toLower).length +
        ("Brightown 50ft Warm White LED String Lights".toList.map Char.toLower).length)
      0 ("string lights".toList.map Char.toLower).length
      0 ("Brightown 50ft Warm White LED String Lights".toList.map Char.toLower).length
      = 13 := by decide
  have hla : ("string lights".toList.map Char.toLower).length = 13 := by decide
  have hlb : ("Brightown 50ft Warm White LED String Lights".toList.map
      Char.toLower).length = 43 := by decide
  have hsim : similarity_score "string lights"
      "Brightown 50ft Warm White LED String Lights" = 13/28 := by
    rw [similarity_score, similarityCL, ratioCL, hM, hla, hlb]
    norm_num
  have hbrand : "Brightown".isEmpty = false := by decide
  have hcolor : "warm white".isEmpty = false := by decide
  have hb : lowerIn "Brightown" "Brightown 50ft Warm White LED String Lights"
      = true := by decide
  have hc : lowerIn "warm white" "Brightown 50ft Warm White LED String Lights"
      = true := by decide
  simp only [fuzzy_match_product, brightownFeatures, defaultCriteria,
    Option.getD_some, Option.getD_none, Option.isSome_some, Bool.and_true,
    Bool.true_and, hbrand, hcolor, List.isEmpty_nil, Bool.not_true,
    Bool.and_false, Bool.false_and, if_true, if_false, hsim, hb, hc, optTruthy]
  norm_num

/-- C5: pack detection finds the case-insensitive `<integer>-pack` pattern,
and for a positive quantity the unit price is the price divided by the
quantity; in particular `"Widget 12-pack LED bulbs"` at price `24.00` yields
quantity `12` and unit price `2.00`. -/
theorem c5_pack_normalization :
    extract_pack_quantity "Widget 12-pack LED bulbs" = some 12 ∧
    extract_pack_quantity "Widget 12-PACK LED bulbs" = some 12 ∧
    calculate_unit_price 24 12 = 2 ∧
    ∀ (price : ℚ) (q : Nat), 0 < q →
      calculate_unit_price price q = price / (q : ℚ) := by
  refine ⟨by decide, by decide, ?_, ?_⟩
  · norm_num [calculate_unit_price]
  · intro price q hq
    simp [calculate_unit_price, hq]

/-- C5 witness: the unit-price equation applied at the spec's concrete pack
example. -/
theorem c5_pack_normalization_witness :
    0 < 12 ∧ calculate_unit_price 24 12 = 24 / ((12 : Nat) : ℚ) :=
  ⟨by decide, c5_pack_normalization.2.2.2 24 12 (by decide)⟩

/-! ## Embedding cache

`AIProductProcessor.get_product_embedding` memoizes embeddings in the
instance dict `self.embeddings_cache`.  The external provider
(`openai_client.embeddings.create`) is modelled by a response oracle indexed
by the number of external calls made so far; a call consumes one index.  The
function returns the value-or-propagated-error, the updated cache, and the
updated call count. -/

/-- The error class a provider failure surfaces as (the spec's
`EmbeddingUnavailable`); the code re-raises the provider exception. -/
inductive EmbeddingError
  | unavailable
deriving DecidableEq

/-- The embeddings cache: an insertion-ordered map from the exact product
text to its embedding vector. -/
abbrev EmbedCache := List (String × List ℚ)

/-- Exact-string-equality lookup, as Python `product_text in dict` plus
indexing. -/
def cacheLookup (cache : EmbedCache) (text : String) : Option (List ℚ) :=
  (cache.find? (fun e => e.1 == text)).map (fun e => e.2)

/-- `AIProductProcessor.get_product_embedding`: return the cached vector on a
hit; otherwise call the provider once, cache and return its answer on
success, and propagate its error (leaving the cache untouched) on failure. -/
def get_product_embedding (provider : Nat → Except EmbeddingError (List ℚ))
    (cache : EmbedCache) (calls : Nat) (text : String) :
    Except EmbeddingError (List ℚ) × EmbedCache × Nat :=
  match cacheLookup cache text with
  | some v => (Except.ok v, cache, calls)
  | none =>
    match provider calls with
    | Except.ok e => (Except.ok e, (text, e) :: cache, calls + 1)
    | Except.error err => (Except.error err, cache, calls + 1)

/-- A whole sequence of embedding requests over the process lifetime. -/
def runEmbeddings (provider : Nat → Except EmbeddingError (List ℚ)) :
    List String → EmbedCache → Nat → EmbedCache × Nat
  | [], cache, calls => (cache, calls)
  | t :: ts, cache, calls =>
    runEmbeddings provider ts
      (get_product_embedding provider cache calls t).2.1
      (get_product_embedding provider cache calls t).2.2

theorem cache_step_mono (provider : Nat → Except EmbeddingError (List ℚ))
    (cache : EmbedCache) (calls : Nat) (text : String) (k : String) (v : List ℚ)
    (h : cacheLookup cache k = some v) :
    cacheLookup (get_product_embedding provider cache calls text).2.1 k = some v := by
  unfold get_product_embedding
  cases ht : cacheLookup cache text with
  | some w => simpa using h
  | none =>
    cases hp : provider calls with
    | error err => simpa using h
    | ok e =>
      simp only
      have hk : (text == k) = false := by
        rw [beq_eq_false_iff_ne]
        intro he
        rw [he] at ht
        rw [ht] at h
        exact Option.noConfusion h
      simp [cacheLookup, List.find?, hk] at h ⊢
      exact h

theorem runEmbeddings_mono (provider : Nat → Except EmbeddingError (List ℚ)) :
    ∀ (texts : List String) (cache : EmbedCache) (calls : Nat)
      (k : String) (v : List ℚ), cacheLookup cache k = some v →
      cacheLookup (runEmbeddings provider texts cache calls).1 k = some v := by
  intro texts
  induction texts with
  | nil =>
    intro cache calls k v h
    simpa [runEmbeddings] using h
  | cons t ts ih =>
    intro cache calls k v h
    simp only [runEmbeddings]
    exact ih _ _ k v (cache_step_mono provider cache calls t k v h)

/-- C6: cache hits return the stored vector with no provider call and no
state change; misses call the provider exactly once, store the result under
the exact text, and return it; provider failure propagates with no retry and
no cache change; and no entry is ever removed across any request sequence. -/
theorem c6_embedding_cache (provider : Nat → Except EmbeddingError (List ℚ))
    (cache : EmbedCache) (calls : Nat) (text : String) :
    (∀ v, cacheLookup cache text = some v →
      get_product_embedding provider cache calls text =
        (Except.ok v, cache, calls)) ∧
    (∀ e, cacheLookup cache text = none → provider calls = Except.ok e →
      get_product_embedding provider cache calls text =
        (Except.ok e, (text, e) :: cache, calls + 1) ∧
      cacheLookup ((text, e) :: cache) text = some e) ∧
    (∀ err, cacheLookup cache text = none → provider calls = Except.error err →
      get_product_embedding provider cache calls text =
        (Except.error err, cache, calls + 1)) ∧
    (∀ k v, cacheLookup cache k = some v →
      cacheLookup (get_product_embedding provider cache calls text).2.1 k
        = some v) ∧
    (∀ texts k v, cacheLookup cache k = some v →
      cacheLookup (runEmbeddings provider texts cache calls).1 k = some v) := by
  refine ⟨?_, ?_, ?_, ?_, ?_⟩
  · intro v hv
    simp [get_product_embedding, hv]
  · intro e hn hp
    constructor
    · simp [get_product_embedding, hn, hp]
    · simp [cacheLookup, List.find?]
  · intro err hn hp
    simp [get_product_embedding, hn, hp]
  · intro k v h
    exact cache_step_mono provider cache calls text k v h
  · intro texts k v h
    exact runEmbeddings_mono provider texts cache calls k v h

/-- C6 witness: the hit, miss, failure and monotonicity statements applied at
concrete caches, texts and providers. -/
theorem c6_embedding_cache_witness :
    cacheLookup [("a", [2])] "a" = some [2] ∧
    get_product_embedding (fun _ => Except.ok [1]) [("a", [2])] 0 "a" =
      (Except.ok [2], [("a", [2])], 0) ∧
    cacheLookup [("a", [2])] "b" = none ∧
    get_product_embedding (fun _ => Except.ok [1]) [("a", [2])] 0 "b" =
      (Except.ok [1], [("b", [1]), ("a", [2])], 1) ∧
    get_product_embedding (fun _ => Except.error EmbeddingError.unavailable)
        [("a", [2])] 0 "b" =
      (Except.error EmbeddingError.unavailable, [("a", [2])], 1) ∧
    cacheLookup (runEmbeddings (fun _ => Except.ok [1]) ["b", "c"]
      [("a", [2])] 0).1 "a" = some [2] :=
  ⟨by rfl,
   (c6_embedding_cache (fun _ => Except.ok [1]) [("a", [2])] 0 "a").1 [2] (by rfl),
   by rfl,
   ((c6_embedding_cache (fun _ => Except.ok [1]) [("a", [2])] 0 "b").2.1 [1]
     (by rfl) (by rfl)).1,
   (c6_embedding_cache (fun _ => Except.error EmbeddingError.unavailable)
     [("a", [2])] 0 "b").2.2.1 EmbeddingError.unavailable (by rfl) (by rfl),
   (c6_embedding_cache (fun _ => Except.ok [1]) [("a", [2])] 0 "x").2.2.2.2
     ["b", "c"] "a" [2] (by rfl)⟩

/-! ## Live products and the price-range filter

`get_live_prices` and `search_combined` (backend/main.py) filter the live
products with `if p.price and min_price <= p.price <= max_price` before
truncating to the requested count. -/

/-- `LiveProduct` (backend/models.py), restricted to the fields the price
pipeline reads; `price` is `Optional[float]`. -/
structure LiveProduct where
  title : String
  price : Option ℚ
  link : String
  source : String
  match_score : ℚ
deriving DecidableEq

/-- The price-range filter of `get_live_prices` / `search_combined`: Python
keeps `p` when `p.price and min_price <= p.price <= max_price`, so a missing
price and a price of exactly `0.0` are both falsy and dropped. -/
def priceRangeFilter (priceRange : Option (ℚ × ℚ))
    (products : List LiveProduct) : List LiveProduct :=
  match priceRange with
  | none => products
  | some (minPrice, maxPrice) =>
    products.filter (fun p =>
      match p.price with
      | none => false
      | some v => !decide (v = 0) && decide (minPrice ≤ v) && decide (v ≤ maxPrice))

/-- The filter followed by the `[:max_results]` truncation, as applied to the
live products before returning them. -/
def applyPriceFilterAndLimit (priceRange : Option (ℚ × ℚ)) (maxResults : Nat)
    (products : List LiveProduct) : List LiveProduct :=
  (priceRangeFilter priceRange products).take maxResults

/-- The filter the claim asserts — keep exactly the candidates whose price
lies within `[min, max]` inclusive.  Written from the claim's words for
comparison with `priceRangeFilter`. -/
def claimedPriceFilter (priceRange : Option (ℚ × ℚ))
    (products : List LiveProduct) : List LiveProduct :=
  match priceRange with
  | none => products
  | some (minPrice, maxPrice) =>
    products.filter (fun p =>
      match p.price with
      | none => false
      | some v => decide (minPrice ≤ v) && decide (v ≤ maxPrice))

/-- A live listing priced at exactly `0.00`. -/
def zeroPriceProduct : LiveProduct :=
  { title := "Free sample widget", price := some 0, link := "l",
    source := "s", match_score := 1 }

/-- C9 counterexample: with range `[0, 5]` a candidate priced `0.00` — equal
to the range minimum, hence kept by the claim — is removed by the code, whose
truthiness test `p.price and …` treats a `0.0` price as false. -/
theorem c9_counterexample :
    zeroPriceProduct.price = some 0 ∧
    claimedPriceFilter (some (0, 5)) [zeroPriceProduct] = [zeroPriceProduct] ∧
    priceRangeFilter (some (0, 5)) [zeroPriceProduct] = [] ∧
    priceRangeFilter (some (0, 5)) [zeroPriceProduct] ≠
      claimedPriceFilter (some (0, 5)) [zeroPriceProduct] := by
  refine ⟨rfl, ?_, ?_, ?_⟩ <;> decide

/-- C9 amended: when a price range `[min, max]` is supplied, the filter
applied before the final truncation keeps exactly the candidates with a
present, nonzero price `v` with `min ≤ v ≤ max` (inclusive at both ends for
nonzero prices), preserving order; the requested-count truncation happens
after the filter. -/
theorem c9_price_range_filter (minPrice maxPrice : ℚ)
    (products : List LiveProduct) (maxResults : Nat) :
    (∀ p, p ∈ priceRangeFilter (some (minPrice, maxPrice)) products ↔
      p ∈ products ∧ ∃ v, p.price = some v ∧ v ≠ 0 ∧
        minPrice ≤ v ∧ v ≤ maxPrice) ∧
    (priceRangeFilter (some (minPrice, maxPrice)) products).Sublist products ∧
    applyPriceFilterAndLimit (some (minPrice, maxPrice)) maxResults products =
      (priceRangeFilter (some (minPrice, maxPrice)) products).take maxResults ∧
    (applyPriceFilterAndLimit (some (minPrice, maxPrice)) maxResults
      products).length ≤ maxResults := by
  refine ⟨?_, ?_, rfl, ?_⟩
  · intro p
    simp only [priceRangeFilter, List.mem_filter]
    constructor
    · rintro ⟨hp, hc⟩
      refine ⟨hp, ?_⟩
      cases hv : p.price with
      | none => rw [hv] at hc; simp at hc
      | some v =>
        rw [hv] at hc
        simp only [Bool.and_eq_true, Bool.not_eq_true', decide_eq_false_iff_not,
          decide_eq_true_eq] at hc
        exact ⟨v, rfl, hc.1.1, hc.1.2, hc.2⟩
    · rintro ⟨hp, v, hv, hz, hlo, hhi⟩
      refine ⟨hp, ?_⟩
      rw [hv]
      simp only [Bool.and_eq_true, Bool.not_eq_true', decide_eq_false_iff_not,
        decide_eq_true_eq]
      exact ⟨⟨hz, hlo⟩, hhi⟩
  · exact List.filter_sublist products
  · calc (applyPriceFilterAndLimit (some (minPrice, maxPrice)) maxResults
        products).length
        ≤ maxResults := by
          unfold applyPriceFilterAndLimit
          rw [List.length_take]
          exact min_le_left _ _

/-! ## Text synthesizers

`AIProductProcessor.create_product_text` and `create_features_text`
concatenate labelled fields with `" ".join(parts)`, skipping falsy optional
fields.  Catalog records always begin with the product name, then category,
then type; attribute sets begin with the type, then category. -/

/-- `CatalogProduct`: a record of the local catalog as consumed by the
ranking pipeline (the `MatchedProduct` field set of backend/models.py). -/
structure CatalogProduct where
  id : Nat
  name : String
  price : ℝ
  image_url : String
  category : String
  product_type : String
  brand : Option String
  color : Option String
  size : Option String
  material : Option String
  style : Option String
  key_features : List String
  specifications : List (String × String)
  description : String

/-- The optional labelled parts shared by both synthesizers, in source
order: brand, color, size, material, style, key features, specifications. -/
def optionalParts (brand color size material style : Option String)
    (key_features : List String) (specifications : List (String × String)) :
    List String :=
  (if optTruthy brand then ["Brand: " ++ brand.getD ""] else [])
  ++ (if optTruthy color then ["Color: " ++ color.getD ""] else [])
  ++ (if optTruthy size then ["Size: " ++ size.getD ""] else [])
  ++ (if optTruthy material then ["Material: " ++ material.getD ""] else [])
  ++ (if optTruthy style then ["Style: " ++ style.getD ""] else [])
  ++ (if !key_features.isEmpty then
      ["Features: " ++ String.intercalate ", " key_features] else [])
  ++ (if !specifications.isEmpty then
      ["Specifications: " ++ String.intercalate ", "
        (specifications.map (fun e => e.1 ++ ": " ++ e.2))] else [])

/-- `AIProductProcessor.create_product_text`: name, category and type are
unconditional, the optional parts follow, the description comes last when
present. -/
def create_product_text (p : CatalogProduct) : String :=
  String.intercalate " " (
    ["Product: " ++ p.name, "Category: " ++ p.category,
     "Type: " ++ p.product_type]
    ++ optionalParts p.brand p.color p.size p.material p.style
        p.key_features p.specifications
    ++ (if !p.description.isEmpty then
        ["Description: " ++ p.description] else []))

/-- `AIProductProcessor.create_features_text`: type and category are
unconditional, the optional parts follow; there is no description. -/
def create_features_text (f : ProductFeatures) : String :=
  String.intercalate " " (
    ["Product: " ++ f.product_type, "Category: " ++ f.category]
    ++ optionalParts f.brand f.color f.size f.material f.style
        f.key_features f.specifications)

/-- The catalog synthesis the claim asserts — fields in the fixed order
type, category, brand, …, description, with no name field.  Written from the
claim's words for comparison with `create_product_text`. -/
def claimedCatalogText (p : CatalogProduct) : String :=
  String.intercalate " " (
    ["Type: " ++ p.product_type, "Category: " ++ p.category]
    ++ optionalParts p.brand p.color p.size p.material p.style
        p.key_features p.specifications
    ++ (if !p.description.isEmpty then
        ["Description: " ++ p.description] else []))

/-- A minimal catalog record with distinct name, category and type. -/
noncomputable def glowLampProduct : CatalogProduct :=
  { id := 1, name := "Glow Lamp", price := 10, image_url := "u",
    category := "lighting", product_type := "lamp", brand := none,
    color := none, size := none, material := none, style := none,
    key_features := [], specifications := [], description := "" }

/-- C4 counterexample: the catalog synthesizer starts with the product name
and renders category before type, so its output differs from the claim's
fixed order `type, category, …` on a concrete record. -/
theorem c4_counterexample :
    create_product_text glowLampProduct =
      "Product: Glow Lamp Category: lighting Type: lamp" ∧
    claimedCatalogText glowLampProduct = "Type: lamp Category: lighting" ∧
    create_product_text glowLampProduct ≠ claimedCatalogText glowLampProduct := by
  refine ⟨?_, ?_, ?_⟩ <;> decide

/-- C4 amended: both synthesizers concatenate the present fields in a fixed
order, omitting null or empty fields with no placeholders — attribute sets
as type, category, brand, color, size, material, style, key features,
specifications; catalog records as name, category, type, then the same tail
plus description — and field-wise identical inputs synthesize identical
strings. -/
theorem c4_text_synthesis (a b : ProductFeatures) (p q : CatalogProduct)
    (h1 : a.product_type = b.product_type) (h2 : a.category = b.category)
    (h3 : a.brand = b.brand) (h4 : a.color = b.color) (h5 : a.size = b.size)
    (h6 : a.material = b.material) (h7 : a.style = b.style)
    (h8 : a.key_features = b.key_features)
    (h9 : a.specifications = b.specifications)
    (g1 : p.name = q.name) (g2 : p.category = q.category)
    (g3 : p.product_type = q.product_type) (g4 : p.brand = q.brand)
    (g5 : p.color = q.color) (g6 : p.size = q.size)
    (g7 : p.material = q.material) (g8 : p.style = q.style)
    (g9 : p.key_features = q.key_features)
    (g10 : p.specifications = q.specifications)
    (g11 : p.description = q.description) :
    create_features_text a = create_features_text b ∧
    create_product_text p = create_product_text q ∧
    create_features_text a = String.intercalate " " (
      ["Product: " ++ a.product_type, "Category: " ++ a.category]
      ++ optionalParts a.brand a.color a.size a.material a.style
          a.key_features a.specifications) ∧
    create_product_text p = String.intercalate " " (
      ["Product: " ++ p.name, "Category: " ++ p.category,
       "Type: " ++ p.product_type]
      ++ optionalParts p.brand p.color p.size p.material p.style
          p.key_features p.specifications
      ++ (if !p.description.isEmpty then
          ["Description: " ++ p.description] else [])) := by
  refine ⟨?_, ?_, rfl, rfl⟩
  · unfold create_features_text
    rw [h1, h2, h3, h4, h5, h6, h7, h8, h9]
  · unfold create_product_text
    rw [g1, g2, g3, g4, g5, g6, g7, g8, g9, g10, g11]

/-! ## Price scorer

`AIProductProcessor.calculate_price_score` works on floats and applies a
sub-linear real power (`normalized ** 0.7`), so it is modelled over `ℝ`. -/

/-- Python `min(all_prices)` for a nonempty list (`0` in the unreachable
empty case). -/
noncomputable def listMinR : List ℝ → ℝ
  | [] => 0
  | p0 :: rest => rest.foldl min p0

/-- Python `max(all_prices)` for a nonempty list (`0` in the unreachable
empty case). -/
noncomputable def listMaxR : List ℝ → ℝ
  | [] => 0
  | p0 :: rest => rest.foldl max p0

/-- `AIProductProcessor.calculate_price_score`: `0.5` with no comparison
prices, `1.0` when the price range is zero, otherwise
`1.0 - normalized ** 0.7 * 0.5` for the price normalized into `[0,1]`
against the observed minimum and maximum. -/
noncomputable def calculate_price_score (price : ℝ) (all_prices : List ℝ) : ℝ :=
  match all_prices with
  | [] => 0.5
  | _ :: _ =>
    let maxPrice := listMaxR all_prices
    let minPrice := listMinR all_prices
    let priceRange := maxPrice - minPrice
    if priceRange = 0 then 1
    else
      let normalized := (price - minPrice) / priceRange
      1 - normalized ^ (0.7 : ℝ) * 0.5

theorem foldl_max_bounds (l : List ℝ) :
    ∀ a : ℝ, a ≤ l.foldl max a ∧ ∀ x ∈ l, x ≤ l.foldl max a := by
  induction l with
  | nil => intro a; simp
  | cons b t ih =>
    intro a
    simp only [List.foldl_cons]
    have h := ih (max a b)
    refine ⟨le_trans (le_max_left a b) h.1, ?_⟩
    intro x hx
    rcases List.mem_cons.mp hx with rfl | hx
    · exact le_trans (le_max_right a x) h.1
    · exact h.2 x hx

theorem foldl_min_bounds (l : List ℝ) :
    ∀ a : ℝ, l.foldl min a ≤ a ∧ ∀ x ∈ l, l.foldl min a ≤ x := by
  induction l with
  | nil => intro a; simp
  | cons b t ih =>
    intro a
    simp only [List.foldl_cons]
    have h := ih (min a b)
    refine ⟨le_trans h.1 (min_le_left a b), ?_⟩
    intro x hx
    rcases List.mem_cons.mp hx with rfl | hx
    · exact le_trans h.1 (min_le_right a x)
    · exact h.2 x hx

theorem listMinR_le (prices : List ℝ) (q : ℝ) (hq : q ∈ prices) :
    listMinR prices ≤ q := by
  cases prices with
  | nil => exact absurd hq (List.not_mem_nil q)
  | cons p0 rest =>
    rcases List.mem_cons.mp hq with rfl | hq
    · exact (foldl_min_bounds rest q).1
    · exact (foldl_min_bounds rest p0).2 q hq

theorem le_listMaxR (prices : List ℝ) (q : ℝ) (hq : q ∈ prices) :
    q ≤ listMaxR prices := by
  cases prices with
  | nil => exact absurd hq (List.not_mem_nil q)
  | cons p0 rest =>
    rcases List.mem_cons.mp hq with rfl | hq
    · exact (foldl_max_bounds rest q).1
    · exact (foldl_max_bounds rest p0).2 q hq

/-- The non-degenerate branch of the price scorer, spelled out. -/
theorem calculate_price_score_eq (price : ℝ) (prices : List ℝ)
    (hne : prices ≠ [])
    (hr : listMaxR prices - listMinR prices ≠ 0) :
    calculate_price_score price prices =
      1 - ((price - listMinR prices) /
        (listMaxR prices - listMinR prices)) ^ (0.7 : ℝ) * 0.5 := by
  cases prices with
  | nil => exact absurd rfl hne
  | cons p0 rest =>
    simp only [calculate_price_score]
    rw [if_neg hr]

theorem calculate_price_score_antitone (prices : List ℝ) (hne : prices ≠ [])
    (hr : 0 < listMaxR prices - listMinR prices) (x y : ℝ)
    (hx : listMinR prices ≤ x) (hxy : x ≤ y) :
    calculate_price_score y prices ≤ calculate_price_score x prices := by
  rw [calculate_price_score_eq x prices hne (ne_of_gt hr),
    calculate_price_score_eq y prices hne (ne_of_gt hr)]
  have h1 : 0 ≤ (x - listMinR prices) / (listMaxR prices - listMinR prices) :=
    div_nonneg (by linarith) (le_of_lt hr)
  have h2 : (x - listMinR prices) / (listMaxR prices - listMinR prices) ≤
      (y - listMinR prices) / (listMaxR prices - listMinR prices) :=
    (div_le_div_iff_of_pos_right hr).mpr (by linarith)
  have h3 : ((x - listMinR prices) / (listMaxR prices - listMinR prices))
        ^ (0.7 : ℝ) ≤
      ((y - listMinR prices) / (listMaxR prices - listMinR prices))
        ^ (0.7 : ℝ) :=
    Real.rpow_le_rpow h1 h2 (by norm_num)
  linarith

theorem calculate_price_score_mem_bounds (prices : List ℝ) (hne : prices ≠ [])
    (hr : 0 < listMaxR prices - listMinR prices) (q : ℝ) (hq : q ∈ prices) :
    0 ≤ calculate_price_score q prices ∧ calculate_price_score q prices ≤ 1 := by
  rw [calculate_price_score_eq q prices hne (ne_of_gt hr)]
  have hmin := listMinR_le prices q hq
  have hmax := le_listMaxR prices q hq
  have h0 : 0 ≤ (q - listMinR prices) / (listMaxR prices - listMinR prices) :=
    div_nonneg (by linarith) (le_of_lt hr)
  have h1 : (q - listMinR prices) / (listMaxR prices - listMinR prices) ≤ 1 := by
    rw [div_le_one hr]
    linarith
  have hp0 := Real.rpow_nonneg h0 (0.7 : ℝ)
  have hp1 := Real.rpow_le_one h0 h1 (by norm_num : (0 : ℝ) ≤ 0.7)
  constructor <;> linarith

/-- C3: over a comparison set with at least two distinct prices, the price
score is monotonically decreasing in the product price, the set's minimum
price scores highest and its maximum lowest, and every member's score lies
in `[0,1]`. -/
theorem c3_price_score_monotone (prices : List ℝ) (a b p1 p2 : ℝ)
    (ha : a ∈ prices) (hb : b ∈ prices) (hab : a ≠ b)
    (h1 : p1 ∈ prices) (h2 : p2 ∈ prices) (h12 : p1 ≤ p2) :
    calculate_price_score p2 prices ≤ calculate_price_score p1 prices ∧
    (∀ q ∈ prices, calculate_price_score q prices ≤
      calculate_price_score (listMinR prices) prices) ∧
    (∀ q ∈ prices, calculate_price_score (listMaxR prices) prices ≤
      calculate_price_score q prices) ∧
    (∀ q ∈ prices, 0 ≤ calculate_price_score q prices ∧
      calculate_price_score q prices ≤ 1) := by
  have hne : prices ≠ [] := by
    intro h
    rw [h] at ha
    exact List.not_mem_nil a ha
  have hr : 0 < listMaxR prices - listMinR prices := by
    rcases lt_or_le (listMinR prices) (listMaxR prices) with h | h
    · linarith
    · exfalso
      apply hab
      have hmina := listMinR_le prices a ha
      have hminb := listMinR_le prices b hb
      have hmaxa := le_listMaxR prices a ha
      have hmaxb := le_listMaxR prices b hb
      linarith
  refine ⟨?_, ?_, ?_, ?_⟩
  · exact calculate_price_score_antitone prices hne hr p1 p2
      (listMinR_le prices p1 h1) h12
  · intro q hq
    exact calculate_price_score_antitone prices hne hr (listMinR prices) q
      le_rfl (listMinR_le prices q hq)
  · intro q hq
    exact calculate_price_score_antitone prices hne hr q (listMaxR prices)
      (listMinR_le prices q hq) (le_listMaxR prices q hq)
  · intro q hq
    exact calculate_price_score_mem_bounds prices hne hr q hq

/-- C3 witness: the monotonicity and bounds statements applied to the
comparison set `[1, 2]`. -/
theorem c3_price_score_monotone_witness :
    (1 : ℝ) ∈ [(1 : ℝ), 2] ∧ (2 : ℝ) ∈ [(1 : ℝ), 2] ∧ (1 : ℝ) ≠ 2 ∧
      (1 : ℝ) ≤ 2 ∧
    calculate_price_score 2 [(1 : ℝ), 2] ≤ calculate_price_score 1 [(1 : ℝ), 2] :=
  ⟨by simp, by simp, ne_of_lt one_lt_two, one_le_two,
   (c3_price_score_monotone [(1 : ℝ), 2] 1 2 1 2 (by simp) (by simp)
     (ne_of_lt one_lt_two) (by simp) (by simp) one_le_two).1⟩

theorem foldl_max_const (l : List ℝ) (a : ℝ) (h : ∀ x ∈ l, x = a) :
    l.foldl max a = a := by
  induction l with
  | nil => rfl
  | cons b t ih =>
    simp only [List.foldl_cons]
    rw [h b (List.mem_cons_self b t), max_self]
    exact ih (fun x hx => h x (List.mem_cons_of_mem b hx))

theorem foldl_min_const (l : List ℝ) (a : ℝ) (h : ∀ x ∈ l, x = a) :
    l.foldl min a = a := by
  induction l with
  | nil => rfl
  | cons b t ih =>
    simp only [List.foldl_cons]
    rw [h b (List.mem_cons_self b t), min_self]
    exact ih (fun x hx => h x (List.mem_cons_of_mem b hx))

/-- C8: the price scorer returns the neutral `0.5` on an empty comparison
set, and exactly `1.0` for every member when all prices in the set are
equal. -/
theorem c8_price_score_degenerate (p : ℝ) (prices : List ℝ) :
    calculate_price_score p [] = 0.5 ∧
    (prices ≠ [] → (∀ x ∈ prices, ∀ y ∈ prices, x = y) →
      ∀ q ∈ prices, calculate_price_score q prices = 1) := by
  constructor
  · rfl
  · intro hne hall q _
    cases prices with
    | nil => exact absurd rfl hne
    | cons p0 rest =>
      have hconst : ∀ x ∈ rest, x = p0 := by
        intro x hx
        exact hall x (List.mem_cons_of_mem p0 hx) p0 (List.mem_cons_self p0 rest)
      simp only [calculate_price_score, listMaxR, listMinR]
      rw [foldl_max_const rest p0 hconst, foldl_min_const rest p0 hconst,
        if_pos (sub_self p0)]

/-- C8 witness: the degenerate cases applied at the all-equal comparison set
`[2, 2]`. -/
theorem c8_price_score_degenerate_witness :
    calculate_price_score (2 : ℝ) [] = 0.5 ∧
    calculate_price_score 2 [(2 : ℝ), 2] = 1 :=
  ⟨(c8_price_score_degenerate 2 [(2 : ℝ), 2]).1,
   (c8_price_score_degenerate 2 [(2 : ℝ), 2]).2 (by simp) (by simp) 2 (by simp)⟩

/-! ## Ranking pipeline

The deterministic tail of `AIProductProcessor.find_similar_products`: the
category filter, per-candidate scoring, the stable descending sort
(`matched_products.sort(key=…, reverse=True)` — Python's sort is stable), and
the truncation.  The cosine similarity scores produced by the external
embedding provider enter as a parameter aligned with the filtered list. -/

/-- One scored candidate of the local-catalog ranking. -/
structure ScoredProduct where
  product : CatalogProduct
  similarity_score : ℝ
  price_score : ℝ
  combined_score : ℝ

/-- The optional exact case-insensitive category filter. -/
def applyCategoryFilter (category_filter : Option String)
    (products : List CatalogProduct) : List CatalogProduct :=
  match category_filter with
  | none => products
  | some c => products.filter (fun p => p.category.toLower == c.toLower)

/-- Per-candidate scoring: each candidate's similarity score is zipped in,
its price score is computed against all candidate prices, and
`combined_score = similarity_score * similarity_weight +
price_score * price_weight`. -/
noncomputable def scoreProducts (simScores : List ℝ)
    (products : List CatalogProduct)
    (price_weight similarity_weight : ℝ) : List ScoredProduct :=
  (products.zip simScores).map (fun pz =>
    { product := pz.1, similarity_score := pz.2,
      price_score :=
        calculate_price_score pz.1.price (products.map (fun p => p.price)),
      combined_score := pz.2 * similarity_weight +
        calculate_price_score pz.1.price (products.map (fun p => p.price)) *
          price_weight })

/-- Stable descending insertion on the combined score: the inserted element
(earlier in the original order) passes strictly greater keys and lands before
the first key less than or equal to its own. -/
noncomputable def insertDescByCombined (x : ScoredProduct) :
    List ScoredProduct → List ScoredProduct
  | [] => [x]
  | y :: ys =>
    if x.combined_score < y.combined_score then y :: insertDescByCombined x ys
    else x :: y :: ys

/-- Stable descending sort by combined score, the semantics of Python
`list.sort(key=lambda x: x['combined_score'], reverse=True)`. -/
noncomputable def sortDescByCombined : List ScoredProduct → List ScoredProduct
  | [] => []
  | x :: xs => insertDescByCombined x (sortDescByCombined xs)

/-- `AIProductProcessor.find_similar_products` after the external calls. -/
noncomputable def find_similar_products (simScores : List ℝ)
    (products : List CatalogProduct) (max_results : Nat)
    (category_filter : Option String)
    (price_weight similarity_weight : ℝ) : List ScoredProduct :=
  let filtered := applyCategoryFilter category_filter products
  if filtered.isEmpty then []
  else
    (sortDescByCombined
      (scoreProducts simScores filtered price_weight similarity_weight)).take
      max_results

/-- Descending order on combined scores. -/
def combGe (u v : ScoredProduct) : Prop :=
  v.combined_score ≤ u.combined_score

theorem insertDesc_perm (x : ScoredProduct) (l : List ScoredProduct) :
    (insertDescByCombined x l).Perm (x :: l) := by
  induction l with
  | nil => exact List.Perm.refl _
  | cons y ys ih =>
    simp only [insertDescByCombined]
    split
    · exact ((ih.cons y).trans (List.Perm.swap x y ys))
    · exact List.Perm.refl _

theorem sortDesc_perm (l : List ScoredProduct) :
    (sortDescByCombined l).Perm l := by
  induction l with
  | nil => exact List.Perm.refl _
  | cons x xs ih =>
    simp only [sortDescByCombined]
    exact (insertDesc_perm x (sortDescByCombined xs)).trans (ih.cons x)

theorem insertDesc_sorted (x : ScoredProduct) (l : List ScoredProduct)
    (h : List.Pairwise combGe l) :
    List.Pairwise combGe (insertDescByCombined x l) := by
  induction l with
  | nil => exact List.pairwise_singleton combGe x
  | cons y ys ih =>
    simp only [insertDescByCombined]
    split
    · rename_i hlt
      rcases List.pairwise_cons.mp h with ⟨hy, hys⟩
      refine List.pairwise_cons.mpr ⟨?_, ih hys⟩
      intro z hz
      rcases List.mem_cons.mp ((insertDesc_perm x ys).mem_iff.mp hz) with rfl | hz
      · exact le_of_lt hlt
      · exact hy z hz
    · rename_i hge
      rcases List.pairwise_cons.mp h with ⟨hy, _⟩
      refine List.pairwise_cons.mpr ⟨?_, h⟩
      intro z hz
      rcases List.mem_cons.mp hz with rfl | hz
      · exact le_of_not_lt hge
      · exact le_trans (hy z hz) (le_of_not_lt hge)

theorem sortDesc_sorted (l : List ScoredProduct) :
    List.Pairwise combGe (sortDescByCombined l) := by
  induction l with
  | nil => exact List.Pairwise.nil
  | cons x xs ih =>
    simp only [sortDescByCombined]
    exact insertDesc_sorted x (sortDescByCombined xs) ih

theorem insertDesc_filter_key (x : ScoredProduct) (l : List ScoredProduct)
    (c : ℝ) :
    (insertDescByCombined x l).filter (fun z => decide (z.combined_score = c))
      = (x :: l).filter (fun z => decide (z.combined_score = c)) := by
  induction l with
  | nil => rfl
  | cons y ys ih =>
    simp only [insertDescByCombined]
    split
    · rename_i hlt
      by_cases hx : x.combined_score = c <;> by_cases hy : y.combined_score = c
      · exfalso
        rw [hx, hy] at hlt
        exact lt_irrefl c hlt
      · simp [List.filter_cons, hx, hy, ih]
      · simp [List.filter_cons, hx, hy, ih]
      · simp [List.filter_cons, hx, hy, ih]
    · rfl

theorem sortDesc_filter_key (l : List ScoredProduct) (c : ℝ) :
    (sortDescByCombined l).filter (fun z => decide (z.combined_score = c))
      = l.filter (fun z => decide (z.combined_score = c)) := by
  induction l with
  | nil => rfl
  | cons x xs ih =>
    simp only [sortDescByCombined]
    rw [insertDesc_filter_key x (sortDescByCombined xs) c, List.filter_cons,
      List.filter_cons, ih]

theorem scoreProducts_combined (simScores : List ℝ)
    (products : List CatalogProduct) (price_weight similarity_weight : ℝ) :
    ∀ sp ∈ scoreProducts simScores products price_weight similarity_weight,
      sp.combined_score = sp.similarity_score * similarity_weight +
        sp.price_score * price_weight := by
  intro sp hsp
  rcases List.mem_map.mp hsp with ⟨pz, _, rfl⟩
  rfl

set_option linter.unusedVariables false in
/-- C2: each candidate's combined score is the literal weighted sum
`similarityWeight × similarityScore + priceWeight × priceScore`; the output
is the stable descending sort by combined score truncated to the requested
count — sorted descending, with ties of equal combined score preserving the
original candidate order, and of length at most the requested maximum. -/
theorem c2_find_similar_products (simScores : List ℝ)
    (products : List CatalogProduct) (max_results : Nat)
    (category_filter : Option String) (price_weight similarity_weight : ℝ) :
    (find_similar_products simScores products max_results category_filter
        price_weight similarity_weight =
      (sortDescByCombined (scoreProducts simScores
        (applyCategoryFilter category_filter products) price_weight
        similarity_weight)).take max_results) ∧
    ((find_similar_products simScores products max_results category_filter
        price_weight similarity_weight).map (fun sp => sp.combined_score) =
      (find_similar_products simScores products max_results category_filter
        price_weight similarity_weight).map (fun sp =>
          similarity_weight * sp.similarity_score +
          price_weight * sp.price_score)) ∧
    List.Pairwise combGe (find_similar_products simScores products max_results
      category_filter price_weight similarity_weight) ∧
    (∀ c : ℝ,
      (sortDescByCombined (scoreProducts simScores
          (applyCategoryFilter category_filter products) price_weight
          similarity_weight)).filter (fun z => decide (z.combined_score = c)) =
        (scoreProducts simScores (applyCategoryFilter category_filter products)
          price_weight similarity_weight).filter
            (fun z => decide (z.combined_score = c))) ∧
    (sortDescByCombined (scoreProducts simScores
        (applyCategoryFilter category_filter products) price_weight
        similarity_weight)).Perm
      (scoreProducts simScores (applyCategoryFilter category_filter products)
        price_weight similarity_weight) ∧
    (find_similar_products simScores products max_results category_filter
      price_weight similarity_weight).length ≤ max_results := by
  have heq : find_similar_products simScores products max_results
      category_filter price_weight similarity_weight =
      (sortDescByCombined (scoreProducts simScores
        (applyCategoryFilter category_filter products) price_weight
        similarity_weight)).take max_results := by
    unfold find_similar_products
    by_cases hemp : (applyCategoryFilter category_filter products).isEmpty
    · rw [if_pos hemp]
      rw [List.isEmpty_iff] at hemp
      rw [hemp]
      simp [scoreProducts, sortDescByCombined]
    · rw [if_neg hemp]
  have hmem : ∀ sp ∈ find_similar_products simScores products max_results
      category_filter price_weight similarity_weight,
      sp.combined_score = sp.similarity_score * similarity_weight +
        sp.price_score * price_weight := by
    intro sp hsp
    rw [heq] at hsp
    have h1 : sp ∈ sortDescByCombined (scoreProducts simScores
        (applyCategoryFilter category_filter products) price_weight
        similarity_weight) :=
      (List.take_sublist _ _).mem hsp
    have h2 := (sortDesc_perm _).mem_iff.mp h1
    exact scoreProducts_combined simScores _ price_weight similarity_weight sp h2
  refine ⟨heq, ?_, ?_, ?_, sortDesc_perm _, ?_⟩
  · apply List.map_congr_left
    intro sp hsp
    rw [hmem sp hsp]
    ring
  · rw [heq]
    exact (sortDesc_sorted _).sublist (List.take_sublist _ _)
  · intro c
    exact sortDesc_filter_key _ c
  · rw [heq, List.length_take]
    exact min_le_left _ _

/-- C4 witness: the synthesis theorem applied to two field-wise identical
concrete inputs. -/
theorem c4_text_synthesis_witness :
    create_features_text brightownFeatures = create_features_text brightownFeatures ∧
    create_product_text glowLampProduct = create_product_text glowLampProduct :=
  ⟨(c4_text_synthesis brightownFeatures brightownFeatures glowLampProduct
      glowLampProduct rfl rfl rfl rfl rfl rfl rfl rfl rfl rfl rfl rfl rfl rfl
      rfl rfl rfl rfl rfl rfl).1,
   (c4_text_synthesis brightownFeatures brightownFeatures glowLampProduct
      glowLampProduct rfl rfl rfl rfl rfl rfl rfl rfl rfl rfl rfl rfl rfl rfl
      rfl rfl rfl rfl rfl rfl).2.1⟩

end ProductIntel
